import Mathlib

/-!
Shallow embedding of the Gordian Envelope core (bc-envelope-rust) for checking
the natural-language specification against the code.

Modelling conventions, used throughout:

* SHA-256 digests are modelled by a free injective coding into `Nat`
  (`Digest.fromImage`, `Digest.fromDigests`): equal inputs give equal digests,
  and distinct constructions give distinct digests.  This is the standard
  collision-free abstraction of a cryptographic hash; every digest equality
  proved here holds for any interpretation of the hash, and digest
  distinctness holds assuming no SHA-256 collision among the inputs involved.
* Canonical CBOR byte strings are identified with the CBOR value they encode:
  the canonical deterministic encoding is injective, so a byte string
  produced by `cbor_data` is represented by the `CBOR` value itself, and
  parsing such a byte string (`CBOR::from_data`) recovers the value.
* The external `EncryptedMessage` (bc_components) stores ciphertext that is
  invertible given the key; it is modelled by the plaintext it encrypts
  together with the authenticated digest (AAD), the key and the nonce.
  Likewise `Compressed` stores its uncompressed payload and optional digest.
* Rust `Rc` sharing is immaterial to the values computed and is dropped.
-/

namespace BCEnvelope

/-- CBOR tag numbers from the shared registry (`bc_components::tags_registry`).
Only their pairwise distinctness matters to the claims; the numbers follow the
registry. -/
def leafTagV : Nat := 24

def envelopeTagV : Nat := 200

def encryptedTagV : Nat := 201

def digestTagV : Nat := 203

def compressedTagV : Nat := 206

def assertionTagV : Nat := 221

def knownValueTagV : Nat := 223

def wrappedEnvelopeTagV : Nat := 224

/-- Model of canonical deterministic CBOR values (`dcbor::CBOR`), restricted to
the shapes the envelope codec produces and inspects.  The external codecs of
`EncryptedMessage`, `Compressed` and `Digest` are injections whose internals
the envelope code never inspects; they are modelled by the dedicated
constructors `emsg`, `comp` and `digestVal`. -/
inductive CBOR : Type where
  | uint (n : Nat)
  | bytes (bs : List Nat)
  | array (elems : List CBOR)
  | tagged (tag : Nat) (item : CBOR)
  | emsg (plaintext : CBOR) (aad : Option Nat) (key : Nat) (nonce : Nat)
  | comp (data : CBOR) (digest : Option Nat)
  | digestVal (d : Nat)

/-- Injective coding of a list of naturals into one natural. -/
def encodeNatList : List Nat → Nat
  | [] => 0
  | a :: t => Nat.pair a (encodeNatList t) + 1

def encodeOptNat : Option Nat → Nat
  | none => 0
  | some n => n + 1

mutual

/-- Injective coding of a CBOR value into a natural number; stands for the
canonical CBOR byte string of the value. -/
def encCbor : CBOR → Nat
  | .uint n => Nat.pair 0 n
  | .bytes bs => Nat.pair 1 (encodeNatList bs)
  | .array es => Nat.pair 2 (encCborList es)
  | .tagged t i => Nat.pair 3 (Nat.pair t (encCbor i))
  | .emsg p a k n =>
      Nat.pair 4 (Nat.pair (encCbor p) (Nat.pair (encodeOptNat a) (Nat.pair k n)))
  | .comp d dg => Nat.pair 5 (Nat.pair (encCbor d) (encodeOptNat dg))
  | .digestVal d => Nat.pair 6 d

def encCborList : List CBOR → Nat
  | [] => 0
  | c :: t => Nat.pair (encCbor c) (encCborList t) + 1

end

/-- Model of `Digest::from_image`: SHA-256 over a byte string (byte strings are
identified with the CBOR value they encode).  Free injective coding. -/
def Digest.fromImage (c : CBOR) : Nat := Nat.pair 0 (encCbor c)

/-- Model of `Digest.from_digests`: concatenate the 32-byte digests and hash.
Free injective coding, with a range disjoint from `Digest.fromImage`. -/
def Digest.fromDigests (ds : List Nat) : Nat := Nat.pair 1 (encodeNatList ds)

/-- Model of `bc_components::EncryptedMessage`, see the module comment:
`plaintext` is the content the ciphertext decrypts to under `key`, and `aad`
is the authenticated digest carried in the additional authenticated data
(`opt_digest`). -/
structure EncryptedMessage : Type where
  plaintext : CBOR
  aad : Option Nat
  key : Nat
  nonce : Nat

def EncryptedMessage.has_digest (m : EncryptedMessage) : Bool := m.aad.isSome

/-- Model of `bc_components::Compressed`: the uncompressed payload (a byte
string, identified with its CBOR value) and the optional stored digest. -/
structure Compressed : Type where
  data : CBOR
  digest : Option Nat

/-- The seven-variant envelope (src/envelope.rs).  The Rust `Assertion` struct
(predicate, object, digest) is inlined into the `assertion` constructor. -/
inductive Envelope : Type where
  | node (subject : Envelope) (assertions : List Envelope) (digest : Nat)
  | leaf (cbor : CBOR) (digest : Nat)
  | wrapped (envelope : Envelope) (digest : Nat)
  | knownValue (value : Nat) (digest : Nat)
  | assertion (predicate : Envelope) (object : Envelope) (digest : Nat)
  | encrypted (message : EncryptedMessage)
  | compressed (c : Compressed)
  | elided (digest : Nat)

/-- Digest accessor.  Modelled from the spec: digest.rs is not in src/; the
spec's section 3 table gives the digest of each variant (the cached digest for
the first five variants, the embedded authenticated digest for Encrypted and
Compressed, the digest itself for Elided). -/
def Envelope.digest : Envelope → Nat
  | .node _ _ d => d
  | .leaf _ d => d
  | .wrapped _ d => d
  | .knownValue _ d => d
  | .assertion _ _ d => d
  | .encrypted m => m.aad.getD 0
  | .compressed c => c.digest.getD 0
  | .elided d => d

/-- Subject accessor.  Modelled from the spec: queries.rs is not in src/; the
spec says the subject is the Node subject when the envelope is a Node, else
the envelope itself. -/
def Envelope.subject : Envelope → Envelope
  | .node s _ _ => s
  | e => e

/-- Modelled from the spec: queries.rs is not in src/; variant inspector
listed in the spec's section 6.3. -/
def Envelope.is_encrypted : Envelope → Bool
  | .encrypted _ => true
  | _ => false

/-- Modelled from the spec: queries.rs is not in src/; variant inspector
listed in the spec's section 6.3. -/
def Envelope.is_compressed : Envelope → Bool
  | .compressed _ => true
  | _ => false

/-- Modelled from the spec: queries.rs is not in src/; per the spec's
invariant 3 an envelope is admissible as an assertion when its top-level
variant is `Assertion`. -/
def Envelope.is_subject_assertion : Envelope → Bool
  | .assertion _ _ _ => true
  | _ => false

/-- Modelled from the spec: queries.rs is not in src/; per the spec's
invariant 3, "subject-obscured" means the top-level variant is one of the
obscured variants Encrypted, Compressed, Elided. -/
def Envelope.is_subject_obscured : Envelope → Bool
  | .encrypted _ => true
  | .compressed _ => true
  | .elided _ => true
  | _ => false

/-- Assertion list of a Node; empty for other variants. -/
def Envelope.nodeAssertions : Envelope → List Envelope
  | .node _ las _ => las
  | _ => []

def Envelope.predicateOf : Envelope → Option Envelope
  | .assertion p _ _ => some p
  | _ => none

def Envelope.objectOf : Envelope → Option Envelope
  | .assertion _ o _ => some o
  | _ => none

def Envelope.isWrapped : Envelope → Bool
  | .wrapped _ _ => true
  | _ => false

def Envelope.isNode : Envelope → Bool
  | .node _ _ _ => true
  | _ => false

/-- Model of `dcbor::Error`.  The envelope decoder only ever produces
`invalidFormat`; `other` stands for the parser's remaining variants, none of
which is a missing-digest error. -/
inductive DCBORError : Type where
  | invalidFormat
  | other

/-- Errors of the envelope crate (error.rs is not in src/; the spec's section 7
table lists the kinds).  `dcbor::Error` is modelled by `DCBORError`. -/
inductive Error : Type where
  | invalidFormat
  | missingDigest
  | invalidDigest
  | alreadyEncrypted
  | alreadyElided
  | alreadyCompressed
  | notEncrypted
  | notCompressed
  | cryptoError
  | cborError (e : DCBORError)

/-- Constructor `Envelope::new_leaf` (src/envelope.rs): digest over the
canonical CBOR bytes of the payload value. -/
def Envelope.new_leaf (c : CBOR) : Envelope := .leaf c (Digest.fromImage c)

/-- Constructor `Envelope::new_wrapped` (src/envelope.rs). -/
def Envelope.new_wrapped (e : Envelope) : Envelope :=
  .wrapped e (Digest.fromDigests [e.digest])

/-- Constructor `Envelope::new_with_known_value` (src/envelope.rs).  The
KnownValue digest is modelled from the spec (known_value.rs is not in src/):
SHA-256 of the canonical CBOR bytes of the u64, computed by the known-value
primitive. -/
def Envelope.new_with_known_value (v : Nat) : Envelope :=
  .knownValue v (Digest.fromImage (.uint v))

/-- Constructor `Envelope::new_with_encrypted` (src/envelope.rs). -/
def Envelope.new_with_encrypted (m : EncryptedMessage) : Except Error Envelope :=
  if m.has_digest then .ok (.encrypted m) else .error .missingDigest

/-- Constructor `Envelope::new_with_compressed` (src/envelope.rs). -/
def Envelope.new_with_compressed (c : Compressed) : Except Error Envelope :=
  if c.digest.isSome then .ok (.compressed c) else .error .missingDigest

def Envelope.new_elided (d : Nat) : Envelope := .elided d

/-- One step of the stable insertion sort modelling Rust's stable
`sort_by(|a, b| a.digest().cmp(&b.digest()))`. -/
def orderedInsertByDigest (a : Envelope) : List Envelope → List Envelope
  | [] => [a]
  | b :: t => if a.digest ≤ b.digest then a :: b :: t else b :: orderedInsertByDigest a t

/-- Stable sort of an assertion list by ascending digest; both this insertion
sort and Rust's merge sort are stable, and stable sorting is unique, so the
two agree. -/
def sortByDigest : List Envelope → List Envelope
  | [] => []
  | a :: t => orderedInsertByDigest a (sortByDigest t)

/-- Boolean check that adjacent digests are ascending (the sorted-assertions
invariant). -/
def sortedByDigestB : List Envelope → Bool
  | [] => true
  | [_] => true
  | a :: b :: t => decide (a.digest ≤ b.digest) && sortedByDigestB (b :: t)

/-- Constructor `new_envelope_with_unchecked_assertions` (src/envelope.rs):
sorts the assertions by digest and derives the Node digest from the subject
digest followed by the sorted assertion digests.  The Rust `assert!` that the
list is nonempty is a panicking precondition; the callers in src/ always pass
a nonempty list, and theorems below carry nonemptiness as a hypothesis. -/
def new_envelope_with_unchecked_assertions (subject : Envelope)
    (unchecked_assertions : List Envelope) : Envelope :=
  let sorted_assertions := sortByDigest unchecked_assertions
  .node subject sorted_assertions
    (Digest.fromDigests (subject.digest :: sorted_assertions.map Envelope.digest))

/-- Constructor `Envelope::new_with_assertions` (src/envelope.rs): requires
every entry to be subject-assertion or subject-obscured. -/
def Envelope.new_with_assertions (subject : Envelope) (assertions : List Envelope) :
    Except Error Envelope :=
  if assertions.all (fun a => a.is_subject_assertion || a.is_subject_obscured) then
    .ok (new_envelope_with_unchecked_assertions subject assertions)
  else .error .invalidFormat

/-- Argument domain of the `Enclosable` capability (src/envelope.rs).  `env`
covers both the `Envelope` and `Rc<Envelope>` impls, which behave alike;
`uintVal` stands for the numeric and string impls, which all go through
`new_leaf` of their canonical CBOR. -/
inductive EncloseVal : Type where
  | env (e : Envelope)
  | knownValue (v : Nat)
  | assertionV (p : Envelope) (o : Envelope) (d : Nat)
  | cborVal (c : CBOR)
  | uintVal (n : Nat)

/-- The `Enclosable::enclose` impls (src/envelope.rs): an envelope is
wrapped, a known value, assertion or CBOR value becomes the corresponding
variant, and plain data becomes a leaf of its canonical CBOR. -/
def EncloseVal.enclose : EncloseVal → Envelope
  | .env e => Envelope.new_wrapped e
  | .knownValue v => Envelope.new_with_known_value v
  | .assertionV p o d => .assertion p o d
  | .cborVal c => Envelope.new_leaf c
  | .uintVal n => Envelope.new_leaf (.uint n)

/-- The runtime type dispatch at the top of `Assertion::new`
(src/assertion.rs): an argument that is already an `Envelope` or
`Rc<Envelope>` is used as is (TypeId downcast), every other argument is
promoted with `enclose`. -/
def coerceEncloseArg : EncloseVal → Envelope
  | .env e => e
  | v => v.enclose

/-- Function `Assertion::new` (src/assertion.rs): coerce both arguments, then
derive the assertion digest from the two child digests.  The result is the
assertion inlined as an `Envelope.assertion` variant (as `new_with_assertion`
stores it). -/
def Assertion.new (predicate object : EncloseVal) : Envelope :=
  let p := coerceEncloseArg predicate
  let o := coerceEncloseArg object
  .assertion p o (Digest.fromDigests [p.digest, o.digest])

mutual

/-- Function `Envelope::untagged_cbor` (src/cbor.rs), the per-variant CBOR
encoding.  Note that the Node elements and the assertion children use
`tagged_cbor` (the ENVELOPE tag), and the Wrapped branch encodes
`envelope.cbor()`, which is also the ENVELOPE-tagged form. -/
def Envelope.untagged_cbor : Envelope → CBOR
  | .node s las _ =>
      .array (.tagged envelopeTagV s.untagged_cbor :: Envelope.untaggedCborList las)
  | .leaf c _ => .tagged leafTagV c
  | .wrapped e _ => .tagged wrappedEnvelopeTagV (.tagged envelopeTagV e.untagged_cbor)
  | .knownValue v _ => .tagged knownValueTagV (.uint v)
  | .assertion p o _ =>
      .tagged assertionTagV
        (.array [.tagged envelopeTagV p.untagged_cbor, .tagged envelopeTagV o.untagged_cbor])
  | .encrypted m => .tagged encryptedTagV (.emsg m.plaintext m.aad m.key m.nonce)
  | .compressed c => .tagged compressedTagV (.comp c.data c.digest)
  | .elided d => .tagged digestTagV (.digestVal d)

def Envelope.untaggedCborList : List Envelope → List CBOR
  | [] => []
  | e :: t => .tagged envelopeTagV e.untagged_cbor :: Envelope.untaggedCborList t

end

/-- Function `tagged_cbor` (dcbor `CBORTaggedEncodable` default): the
untagged form under the ENVELOPE tag.  `Envelope::cbor()` returns this. -/
def Envelope.tagged_cbor (e : Envelope) : CBOR := .tagged envelopeTagV e.untagged_cbor

/-- Function `cbor_data` (dcbor `CBOREncodable`): the canonical byte string of
`cbor()`, identified with the CBOR value itself (see the module comment). -/
def Envelope.cbor_data (e : Envelope) : CBOR := e.tagged_cbor

/-- The identity coercion used at the decode sites: `Assertion::new` called
with two decoded `Envelope` values (src/assertion.rs `from_untagged_cbor`)
keeps them as is and recomputes the digest. -/
def Assertion.newFromEnvelopes (p o : Envelope) : Envelope :=
  .assertion p o (Digest.fromDigests [p.digest, o.digest])

mutual

/-- Function `Envelope::from_untagged_cbor` (src/cbor.rs): dispatch on the
inner tag or array shape.  The `map_err(CBORError::InvalidFormat)` at the
Encrypted, Compressed and Node branches is modelled by collapsing the inner
`Error` to `DCBORError.invalidFormat`. -/
def Envelope.from_untagged_cbor : CBOR → Except DCBORError Envelope
  | .tagged t item =>
      if t = leafTagV then .ok (Envelope.new_leaf item)
      else if t = knownValueTagV then
        match item with
        | .uint v => .ok (Envelope.new_with_known_value v)
        | _ => .error .invalidFormat
      else if t = wrappedEnvelopeTagV then
        match Envelope.from_untagged_cbor item with
        | .ok inner => .ok (Envelope.new_wrapped inner)
        | .error e => .error e
      else if t = assertionTagV then
        match item with
        | .array es =>
            match Envelope.fromTaggedCborList es with
            | .ok envs =>
                match envs with
                | [p, o] => .ok (Assertion.newFromEnvelopes p o)
                | _ => .error .invalidFormat
            | .error e => .error e
        | _ => .error .invalidFormat
      else if t = encryptedTagV then
        match item with
        | .emsg p a k n =>
            match Envelope.new_with_encrypted ⟨p, a, k, n⟩ with
            | .ok e => .ok e
            | .error _ => .error .invalidFormat
        | _ => .error .invalidFormat
      else if t = compressedTagV then
        match item with
        | .comp dt dg =>
            match Envelope.new_with_compressed ⟨dt, dg⟩ with
            | .ok e => .ok e
            | .error _ => .error .invalidFormat
        | _ => .error .invalidFormat
      else if t = digestTagV then
        match item with
        | .digestVal d => .ok (Envelope.new_elided d)
        | _ => .error .invalidFormat
      else .error .invalidFormat
  | .array elements =>
      match elements with
      | e0 :: e1 :: rest =>
          match Envelope.from_tagged_cbor e0 with
          | .ok subj =>
              match Envelope.fromTaggedCborList (e1 :: rest) with
              | .ok assertions =>
                  match Envelope.new_with_assertions subj assertions with
                  | .ok e => .ok e
                  | .error _ => .error .invalidFormat
              | .error e => .error e
          | .error e => .error e
      | _ => .error .invalidFormat
  | _ => .error .invalidFormat

/-- Function `from_tagged_cbor` (dcbor `CBORTaggedDecodable` default): check
the ENVELOPE tag, then decode the untagged form. -/
def Envelope.from_tagged_cbor : CBOR → Except DCBORError Envelope
  | .tagged t item =>
      if t = envelopeTagV then Envelope.from_untagged_cbor item
      else .error .invalidFormat
  | _ => .error .invalidFormat

/-- Elementwise decoding of ENVELOPE-tagged items, as done both for Node
elements (`elements[1..].iter().map(from_tagged_cbor).collect()`) and inside
`Vec::<Envelope>::from_cbor` for the assertion pair. -/
def Envelope.fromTaggedCborList : List CBOR → Except DCBORError (List Envelope)
  | [] => .ok []
  | c :: rest =>
      match Envelope.from_tagged_cbor c with
      | .ok e =>
          match Envelope.fromTaggedCborList rest with
          | .ok es => .ok (e :: es)
          | .error er => .error er
      | .error er => .error er

end

/-- Core of assertion attachment (the `Ok` path of `add_assertion_opt`,
src/assertions.rs): if the subject is already a Node, return it unchanged
when some existing assertion has the same digest, else append the assertion
and re-canonicalize; otherwise build a fresh Node over `self.subject()`. -/
def Envelope.addAssertionCore (self envelope2 : Envelope) : Envelope :=
  match self with
  | .node subject assertions _ =>
      if assertions.any (fun a => a.digest == envelope2.digest) then self
      else new_envelope_with_unchecked_assertions subject (assertions ++ [envelope2])
  | _ => new_envelope_with_unchecked_assertions self.subject [envelope2]

/-- Modelled from the spec: salt.rs is not in src/.  The spec says salting
attaches a salt assertion, producing an envelope with the same meaning but a
fresh digest; the random salt is modelled by a fixed byte string, which is
irrelevant here because every claim uses `salted = false`. -/
def Envelope.add_salt (e : Envelope) : Envelope :=
  e.addAssertionCore
    (Assertion.new (.knownValue 15) (.cborVal (.bytes [7, 7, 7, 7, 7, 7, 7, 7])))

/-- Function `Envelope::add_assertion_opt` (src/assertions.rs). -/
def Envelope.add_assertion_opt (self : Envelope) (assertion : Option Envelope)
    (salted : Bool) : Except Error Envelope :=
  match assertion with
  | some a =>
      if !a.is_subject_assertion && !a.is_subject_obscured then .error .invalidFormat
      else
        let envelope2 := if salted then a.add_salt else a
        .ok (self.addAssertionCore envelope2)
  | none => .ok self

/-- Function `Envelope::add_assertion` (src/assertions.rs) is
`add_assertion_opt(Some(assertion), false).unwrap()`; the `unwrap` panics
exactly when the result is an error, so the model keeps the `Except`. -/
def Envelope.add_assertion (self a : Envelope) : Except Error Envelope :=
  self.add_assertion_opt (some a) false

/-- Model of `SymmetricKey::encrypt_with_digest` (bc_components): the
ciphertext determines the plaintext given the key, and the digest rides in
the authenticated data. -/
def encrypt_with_digest (key : Nat) (plaintext : CBOR) (digest : Nat)
    (test_nonce : Option Nat) : EncryptedMessage :=
  ⟨plaintext, some digest, key, test_nonce.getD 0⟩

/-- Function `Envelope::encrypt_subject_opt` (src/encrypt.rs).  Each branch
encrypts the bytes the source encrypts: for a Node subject these are
`subject.cbor_data()`, the ENVELOPE-tagged bytes; for a Leaf the
LEAF-tagged payload bytes; for Wrapped the envelope's untagged form; for
KnownValue the value's KNOWN-VALUE-tagged bytes; for an Assertion its
ASSERTION-tagged bytes; for Compressed its COMPRESSED-tagged bytes.  The
trailing `assert_eq!(result.digest(), original_digest)` of the source is the
subject of claim C2, not part of the function. -/
def Envelope.encrypt_subject_opt (self : Envelope) (key : Nat)
    (test_nonce : Option Nat) : Except Error Envelope :=
  match self with
  | .node subject assertions _ =>
      if subject.is_encrypted then .error .alreadyEncrypted
      else
        match Envelope.new_with_encrypted
            (encrypt_with_digest key subject.cbor_data subject.digest test_nonce) with
        | .ok encrypted_subject =>
            .ok (new_envelope_with_unchecked_assertions encrypted_subject assertions)
        | .error e => .error e
  | .leaf c d =>
      Envelope.new_with_encrypted (encrypt_with_digest key (.tagged leafTagV c) d test_nonce)
  | .wrapped e d =>
      Envelope.new_with_encrypted
        (encrypt_with_digest key (Envelope.wrapped e d).untagged_cbor d test_nonce)
  | .knownValue v d =>
      Envelope.new_with_encrypted
        (encrypt_with_digest key (.tagged knownValueTagV (.uint v)) d test_nonce)
  | .assertion p o d =>
      Envelope.new_with_encrypted
        (encrypt_with_digest key (Envelope.assertion p o d).untagged_cbor d test_nonce)
  | .encrypted _ => .error .alreadyEncrypted
  | .compressed c =>
      Envelope.new_with_encrypted
        (encrypt_with_digest key (Envelope.compressed c).untagged_cbor
          (Envelope.compressed c).digest test_nonce)
  | .elided _ => .error .alreadyElided

/-- Function `Envelope::encrypt_subject` (src/encrypt.rs). -/
def Envelope.encrypt_subject (self : Envelope) (key : Nat) : Except Error Envelope :=
  self.encrypt_subject_opt key none

/-- Function `Envelope::decrypt_subject` (src/encrypt.rs).  `key.decrypt`
succeeds exactly when the key matches (`CryptoError` otherwise); the
decrypted byte string is the stored plaintext, and `CBOR::from_data` on it
recovers the CBOR value (canonical bytes are identified with their value). -/
def Envelope.decrypt_subject (self : Envelope) (key : Nat) : Except Error Envelope :=
  match self.subject with
  | .encrypted message =>
      if message.key ≠ key then .error .cryptoError
      else
        match message.aad with
        | none => .error .missingDigest
        | some subject_digest =>
            match Envelope.from_untagged_cbor message.plaintext with
            | .error e => .error (.cborError e)
            | .ok parsed =>
                let result_subject := parsed.subject
                if result_subject.digest ≠ subject_digest then .error .invalidDigest
                else
                  match self with
                  | .node _ assertions d =>
                      let result :=
                        new_envelope_with_unchecked_assertions result_subject assertions
                      if result.digest ≠ d then .error .invalidDigest else .ok result
                  | _ => .ok result_subject
  | _ => .error .notEncrypted

/-- Function `Envelope::compress` (src/compress.rs).  The final branch is
`Compressed::from_uncompressed_data(self.cbor_data(), Some(digest)).enclose()`;
that `enclose` is `new_with_compressed(..).unwrap()`, whose `unwrap` always
succeeds because the digest was just stored. -/
def Envelope.compress (self : Envelope) : Except Error Envelope :=
  match self with
  | .compressed _ => .ok self
  | .encrypted _ => .error .alreadyEncrypted
  | .elided _ => .error .alreadyElided
  | _ => .ok (.compressed ⟨self.cbor_data, some self.digest⟩)

/-- Edge kinds delivered to the walk visitor (src/walk.rs). -/
inductive EdgeType : Type where
  | none
  | subject
  | assertion
  | predicate
  | object
  | wrapped

mutual

/-- Function `Envelope::_walk_structure` (src/walk.rs), modelled by its visit
trace: the source calls `visit(self, level, incoming_edge, parent)` and then
recurses; the trace lists the `(envelope, level, incoming_edge)` arguments of
the visitor calls in call order.  The `parent` accumulator only threads the
visitor's return value down an edge and does not affect the call sequence. -/
def Envelope.walkStructureVisits (e : Envelope) (level : Nat) (incoming_edge : EdgeType) :
    List (Envelope × Nat × EdgeType) :=
  (e, level, incoming_edge) ::
    match e with
    | .node s las _ =>
        Envelope.walkStructureVisits s (level + 1) .subject ++
          Envelope.walkStructureVisitsList las (level + 1)
    | .wrapped inner _ => Envelope.walkStructureVisits inner (level + 1) .wrapped
    | .assertion p o _ =>
        Envelope.walkStructureVisits p (level + 1) .predicate ++
          Envelope.walkStructureVisits o (level + 1) .object
    | _ => []

def Envelope.walkStructureVisitsList (las : List Envelope) (level : Nat) :
    List (Envelope × Nat × EdgeType) :=
  match las with
  | [] => []
  | a :: t =>
      Envelope.walkStructureVisits a level .assertion ++
        Envelope.walkStructureVisitsList t level

end

mutual

/-- Function `Envelope::_walk_tree` (src/walk.rs), as a visit trace: the same
traversal, but every visit is made with `EdgeType::None`. -/
def Envelope.walkTreeVisits (e : Envelope) (level : Nat) :
    List (Envelope × Nat × EdgeType) :=
  (e, level, EdgeType.none) ::
    match e with
    | .node s las _ =>
        Envelope.walkTreeVisits s (level + 1) ++ Envelope.walkTreeVisitsList las (level + 1)
    | .wrapped inner _ => Envelope.walkTreeVisits inner (level + 1)
    | .assertion p o _ =>
        Envelope.walkTreeVisits p (level + 1) ++ Envelope.walkTreeVisits o (level + 1)
    | _ => []

def Envelope.walkTreeVisitsList (las : List Envelope) (level : Nat) :
    List (Envelope × Nat × EdgeType) :=
  match las with
  | [] => []
  | a :: t => Envelope.walkTreeVisits a level ++ Envelope.walkTreeVisitsList t level

end

/-- Function `Envelope::walk` (src/walk.rs): structure walk, or tree walk when
`hide_nodes`; both start at level 0, the structure walk with edge `None`. -/
def Envelope.walkVisits (e : Envelope) (hide_nodes : Bool) :
    List (Envelope × Nat × EdgeType) :=
  if hide_nodes then e.walkTreeVisits 0 else e.walkStructureVisits 0 .none

/-- Boolean check for a duplicated digest in a list of envelopes. -/
def dupDigestsB : List Envelope → Bool
  | [] => false
  | a :: t => t.any (fun b => b.digest == a.digest) || dupDigestsB t

mutual

/-- Validity of an envelope: the spec's section 3 invariants, which every
envelope built by the library's constructors satisfies.  Digest closure per
variant; Node shape (nonempty, digest-sorted, duplicate-free assertions, all
admissible); Encrypted and Compressed carry their digest. -/
def Envelope.isValid : Envelope → Bool
  | .node s las d =>
      s.isValid && Envelope.isValidList las && !las.isEmpty &&
        (d == Digest.fromDigests (s.digest :: las.map Envelope.digest)) &&
        sortedByDigestB las && !dupDigestsB las &&
        las.all (fun a => a.is_subject_assertion || a.is_subject_obscured)
  | .leaf c d => d == Digest.fromImage c
  | .wrapped e d => e.isValid && (d == Digest.fromDigests [e.digest])
  | .knownValue v d => d == Digest.fromImage (.uint v)
  | .assertion p o d =>
      p.isValid && o.isValid && (d == Digest.fromDigests [p.digest, o.digest])
  | .encrypted m => m.aad.isSome
  | .compressed c => c.digest.isSome
  | .elided _ => true

def Envelope.isValidList : List Envelope → Bool
  | [] => true
  | e :: t => e.isValid && Envelope.isValidList t

end

/-- Whenever the result is `ok`, its envelope has digest `d`.  Vacuously true
on errors, so it expresses the digest-preservation implication decidably. -/
def resultDigestEq (res : Except Error Envelope) (d : Nat) : Bool :=
  match res with
  | .ok r => r.digest == d
  | .error _ => true

def exceptIsOk {α β : Type} : Except α β → Bool
  | .ok _ => true
  | .error _ => false

/-- Concrete leaf used by witnesses: `leaf(1)`. -/
def leafC : Envelope := Envelope.new_leaf (.uint 1)

/-- Concrete assertion envelope: predicate `2`, object `3`. -/
def aC : Envelope := Assertion.new (.uintVal 2) (.uintVal 3)

/-- Concrete assertion envelope: predicate `4`, object `5`. -/
def bC : Envelope := Assertion.new (.uintVal 4) (.uintVal 5)

/-- Concrete Node: `leaf(1)` with the single assertion `aC`. -/
def nodeC : Envelope := leafC.addAssertionCore aC

/-- Untagged CBOR of a Node array carrying the same assertion twice: what an
encoder never emits, but a decoder accepts. -/
def dupCbor : CBOR := .array [leafC.tagged_cbor, aC.tagged_cbor, aC.tagged_cbor]

/-- Relation by which assertion lists are ordered. -/
def digLe (a b : Envelope) : Prop := a.digest ≤ b.digest

theorem perm_orderedInsertByDigest (a : Envelope) (l : List Envelope) :
    (orderedInsertByDigest a l).Perm (a :: l) := by
  induction l with
  | nil => simp [orderedInsertByDigest]
  | cons b t ih =>
      simp only [orderedInsertByDigest]
      split
      · exact List.Perm.refl _
      · exact (ih.cons b).trans (List.Perm.swap a b t)

theorem perm_sortByDigest (l : List Envelope) : (sortByDigest l).Perm l := by
  induction l with
  | nil => simp [sortByDigest]
  | cons a t ih =>
      exact (perm_orderedInsertByDigest a (sortByDigest t)).trans (ih.cons a)

theorem mem_orderedInsertByDigest {x a : Envelope} {l : List Envelope} :
    x ∈ orderedInsertByDigest a l ↔ x ∈ a :: l :=
  (perm_orderedInsertByDigest a l).mem_iff

theorem mem_sortByDigest {x : Envelope} {l : List Envelope} :
    x ∈ sortByDigest l ↔ x ∈ l :=
  (perm_sortByDigest l).mem_iff

theorem pairwise_orderedInsertByDigest (a : Envelope) {l : List Envelope}
    (h : l.Pairwise digLe) : (orderedInsertByDigest a l).Pairwise digLe := by
  induction l with
  | nil => simp [orderedInsertByDigest, digLe]
  | cons b t ih =>
      rw [List.pairwise_cons] at h
      simp only [orderedInsertByDigest]
      split
      · rename_i hab
        refine List.pairwise_cons.mpr ⟨?_, List.pairwise_cons.mpr h⟩
        intro x hx
        rcases List.mem_cons.mp hx with rfl | hxt
        · exact hab
        · exact Nat.le_trans hab (h.1 x hxt)
      · rename_i hab
        have hba : b.digest ≤ a.digest := Nat.le_of_not_le hab
        refine List.pairwise_cons.mpr ⟨?_, ih h.2⟩
        intro x hx
        rcases List.mem_cons.mp (mem_orderedInsertByDigest.mp hx) with rfl | hxt
        · exact hba
        · exact h.1 x hxt

theorem pairwise_sortByDigest (l : List Envelope) :
    (sortByDigest l).Pairwise digLe := by
  induction l with
  | nil => simp [sortByDigest]
  | cons a t ih => exact pairwise_orderedInsertByDigest a ih

theorem sortByDigest_eq_of_pairwise {l : List Envelope}
    (h : l.Pairwise digLe) : sortByDigest l = l := by
  induction l with
  | nil => rfl
  | cons a t ih =>
      rw [List.pairwise_cons] at h
      simp only [sortByDigest, ih h.2]
      cases t with
      | nil => rfl
      | cons b t2 =>
          have hab : a.digest ≤ b.digest := h.1 b (List.mem_cons_self b t2)
          simp [orderedInsertByDigest, hab]

theorem sortedByDigestB_iff_pairwise (l : List Envelope) :
    sortedByDigestB l = true ↔ l.Pairwise digLe := by
  induction l with
  | nil => simp [sortedByDigestB]
  | cons a t ih =>
      cases t with
      | nil => simp [sortedByDigestB]
      | cons b t2 =>
          simp only [sortedByDigestB, Bool.and_eq_true, decide_eq_true_eq, ih]
          constructor
          · rintro ⟨hab, hp⟩
            rw [List.pairwise_cons] at hp ⊢
            refine ⟨?_, List.pairwise_cons.mpr hp⟩
            intro x hx
            rcases List.mem_cons.mp hx with rfl | hxt
            · exact hab
            · exact Nat.le_trans hab (hp.1 x hxt)
          · intro hp
            rw [List.pairwise_cons] at hp
            exact ⟨hp.1 b (List.mem_cons_self b t2), hp.2⟩

theorem nodup_map_digest_sortByDigest {l : List Envelope} :
    ((sortByDigest l).map Envelope.digest).Nodup ↔ ((l.map Envelope.digest)).Nodup :=
  ((perm_sortByDigest l).map Envelope.digest).nodup_iff

theorem any_digest_sortByDigest {l : List Envelope} {a : Envelope} (hmem : a ∈ l) :
    (sortByDigest l).any (fun x => x.digest == a.digest) = true := by
  refine List.any_eq_true.mpr ⟨a, mem_sortByDigest.mpr hmem, ?_⟩
  exact beq_self_eq_true a.digest

theorem walkStructureVisitsList_eq_flatten (las : List Envelope) (lv : Nat) :
    Envelope.walkStructureVisitsList las lv
      = (las.map (fun a => a.walkStructureVisits lv .assertion)).flatten := by
  induction las with
  | nil => rfl
  | cons a t ih => simp [Envelope.walkStructureVisitsList, ih]

mutual

theorem walkTreeVisits_eq_structure : ∀ (e : Envelope) (lv : Nat) (ed : EdgeType),
    e.walkTreeVisits lv
      = (e.walkStructureVisits lv ed).map (fun v => (v.1, v.2.1, EdgeType.none))
  | .node s las d, lv, ed => by
      simp only [Envelope.walkTreeVisits, Envelope.walkStructureVisits, List.map_cons,
        List.map_append]
      rw [walkTreeVisits_eq_structure s (lv + 1) .subject,
        walkTreeVisitsList_eq_structure las (lv + 1)]
  | .leaf c d, lv, ed => rfl
  | .wrapped inner d, lv, ed => by
      simp only [Envelope.walkTreeVisits, Envelope.walkStructureVisits, List.map_cons]
      rw [walkTreeVisits_eq_structure inner (lv + 1) .wrapped]
  | .knownValue v d, lv, ed => rfl
  | .assertion p o d, lv, ed => by
      simp only [Envelope.walkTreeVisits, Envelope.walkStructureVisits, List.map_cons,
        List.map_append]
      rw [walkTreeVisits_eq_structure p (lv + 1) .predicate,
        walkTreeVisits_eq_structure o (lv + 1) .object]
  | .encrypted m, lv, ed => rfl
  | .compressed c, lv, ed => rfl
  | .elided d, lv, ed => rfl

theorem walkTreeVisitsList_eq_structure : ∀ (las : List Envelope) (lv : Nat),
    Envelope.walkTreeVisitsList las lv
      = (Envelope.walkStructureVisitsList las lv).map (fun v => (v.1, v.2.1, EdgeType.none))
  | [], _ => rfl
  | a :: t, lv => by
      simp only [Envelope.walkTreeVisitsList, Envelope.walkStructureVisitsList,
        List.map_append]
      rw [walkTreeVisits_eq_structure a lv .assertion, walkTreeVisitsList_eq_structure t lv]

end

theorem addAssertionCore_idem (e a : Envelope) :
    (e.addAssertionCore a).addAssertionCore a = e.addAssertionCore a := by
  have hone : ∀ s : Envelope,
      (new_envelope_with_unchecked_assertions s [a]).addAssertionCore a
        = new_envelope_with_unchecked_assertions s [a] := by
    intro s
    simp [new_envelope_with_unchecked_assertions, sortByDigest, orderedInsertByDigest,
      Envelope.addAssertionCore]
  cases e with
  | node s las d =>
      by_cases hany : las.any (fun x => x.digest == a.digest) = true
      · simp [Envelope.addAssertionCore, hany]
      · rw [Bool.not_eq_true] at hany
        simp only [Envelope.addAssertionCore, hany, Bool.false_eq_true, if_false,
          new_envelope_with_unchecked_assertions]
        have hmem : a ∈ las ++ [a] := by simp
        simp [Envelope.addAssertionCore, any_digest_sortByDigest hmem]
  | leaf c d => exact hone _
  | wrapped inner d => exact hone _
  | knownValue v d => exact hone _
  | assertion p o d => exact hone _
  | encrypted m => exact hone _
  | compressed c => exact hone _
  | elided d => exact hone _

theorem add_assertion_opt_ok_eq {e a r : Envelope}
    (h : e.add_assertion_opt (some a) false = .ok r) :
    r = e.addAssertionCore a ∧ (a.is_subject_assertion || a.is_subject_obscured) = true := by
  by_cases hg : (a.is_subject_assertion || a.is_subject_obscured) = true
  · have hng : (!a.is_subject_assertion && !a.is_subject_obscured) = false := by
      cases hA : a.is_subject_assertion <;> cases hB : a.is_subject_obscured <;>
        simp_all
    refine ⟨?_, hg⟩
    simp only [Envelope.add_assertion_opt, hng, Bool.false_eq_true, if_false,
      Except.ok.injEq] at h
    exact h.symm
  · exfalso
    have hng : (!a.is_subject_assertion && !a.is_subject_obscured) = true := by
      cases hA : a.is_subject_assertion <;> cases hB : a.is_subject_obscured <;>
        simp_all
    simp [Envelope.add_assertion_opt, hng] at h

/-- Claim C1.  The round-trip property `decode(encode(e)).digest == e.digest`
fails on the code: for the valid envelope `wrap(leaf(1))` the encoder emits
`tagged(WRAPPED_ENVELOPE, tagged(ENVELOPE, inner))` (src/cbor.rs encodes the
inner envelope with `envelope.cbor()`, the ENVELOPE-tagged form), while the
decoder's WRAPPED_ENVELOPE branch feeds the item to `from_untagged_cbor`,
which rejects the ENVELOPE tag; decoding therefore returns
`InvalidFormat` instead of an envelope with the original digest. -/
theorem claim_C1 :
    (Envelope.new_wrapped leafC).isValid = true ∧
    Envelope.from_tagged_cbor (Envelope.new_wrapped leafC).tagged_cbor
      = .error DCBORError.invalidFormat :=
  ⟨rfl, rfl⟩

/-- Claim C3.  Decryption is not an inverse of encryption on Node envelopes:
for the valid Node `nodeC` and key 7, `encrypt_subject` succeeds (the Node
branch encrypts `subject.cbor_data()`, the ENVELOPE-tagged bytes), but
`decrypt_subject` parses the decrypted bytes with `from_untagged_cbor`, which
rejects the ENVELOPE tag, so decryption fails with `CBORError(InvalidFormat)`
instead of returning an envelope with the original digest. -/
theorem claim_C3 :
    nodeC.isValid = true ∧
    exceptIsOk (nodeC.encrypt_subject 7) = true ∧
    (nodeC.encrypt_subject 7).bind (fun r => r.decrypt_subject 7)
      = .error (.cborError .invalidFormat) :=
  ⟨rfl, rfl, rfl⟩

/-- Claim C5, counterexample.  `Assertion::new` given the envelope `leaf(1)`
as predicate stores that envelope itself, which is not a Wrapped variant, so
the claim that the stored predicate is a Wrapped variant containing the given
envelope is false at this input. -/
theorem claim_C5_counterexample :
    (Assertion.new (.env leafC) (.uintVal 2)).predicateOf = some leafC ∧
    ((Assertion.new (.env leafC) (.uintVal 2)).predicateOf.map Envelope.isWrapped)
      = some false :=
  ⟨rfl, rfl⟩

/-- Claim C5, amended.  When `Assertion::new` is given a predicate or object
that is already an envelope, the TypeId dispatch uses that envelope itself
(identity), bypassing `enclose`; the Enclose capability for envelopes, which
does wrap, is only reached by non-envelope arguments. -/
theorem claim_C5 (e : Envelope) (x : EncloseVal) :
    (Assertion.new (.env e) x).predicateOf = some e ∧
    (Assertion.new x (.env e)).objectOf = some e ∧
    EncloseVal.enclose (.env e) = Envelope.new_wrapped e :=
  ⟨rfl, rfl, rfl⟩

/-- Claim C6.  Adding an assertion whose digest is already present on a Node
returns the subject unchanged, so adding the same assertion twice equals
adding it once (the equality is structural, hence in particular by digest). -/
theorem claim_C6 (e a r : Envelope)
    (h : e.add_assertion_opt (some a) false = .ok r) :
    r.add_assertion_opt (some a) false = .ok r := by
  obtain ⟨hr, hg⟩ := add_assertion_opt_ok_eq h
  have hng : (!a.is_subject_assertion && !a.is_subject_obscured) = false := by
    cases hA : a.is_subject_assertion <;> cases hB : a.is_subject_obscured <;> simp_all
  simp only [Envelope.add_assertion_opt, hng, Bool.false_eq_true, if_false,
    Except.ok.injEq]
  rw [hr, addAssertionCore_idem]

/-- Claim C6, witness: adding `aC` to the Node that already carries `aC`
returns it unchanged. -/
theorem claim_C6_witness : nodeC.add_assertion_opt (some aC) false = .ok nodeC :=
  claim_C6 leafC aC nodeC (by rfl)

/-- Claim C9.  The walk visits the root first at level 0 (structure mode with
edge None); children of a Node, an Assertion and a Wrapped envelope are
visited pre-order at the parent's level plus one, the subject with edge
Subject before the assertions, which are visited in the stored (digest-sorted)
order with edge Assertion; an Assertion visits Predicate then Object; Wrapped
emits the Wrapped edge; and the tree walk (`hide_nodes = true`) performs the
same traversal with incoming edge None at every visit. -/
theorem claim_C9 (e s p o inner : Envelope) (las : List Envelope) (d lv : Nat)
    (ed : EdgeType) :
    (e.walkStructureVisits 0 .none).head? = some (e, 0, .none) ∧
    (e.walkTreeVisits 0).head? = some (e, 0, EdgeType.none) ∧
    e.walkTreeVisits lv
      = (e.walkStructureVisits lv ed).map (fun v => (v.1, v.2.1, EdgeType.none)) ∧
    (Envelope.node s las d).walkStructureVisits lv ed
      = (Envelope.node s las d, lv, ed) ::
          (s.walkStructureVisits (lv + 1) .subject ++
            (las.map (fun a => a.walkStructureVisits (lv + 1) .assertion)).flatten) ∧
    (Envelope.assertion p o d).walkStructureVisits lv ed
      = (Envelope.assertion p o d, lv, ed) ::
          (p.walkStructureVisits (lv + 1) .predicate ++
            o.walkStructureVisits (lv + 1) .object) ∧
    (Envelope.wrapped inner d).walkStructureVisits lv ed
      = (Envelope.wrapped inner d, lv, ed) :: inner.walkStructureVisits (lv + 1) .wrapped := by
  refine ⟨?_, ?_, walkTreeVisits_eq_structure e lv ed, ?_, ?_, ?_⟩
  · cases e <;> rfl
  · cases e <;> rfl
  · rw [Envelope.walkStructureVisits, walkStructureVisitsList_eq_flatten]
  · rfl
  · rfl

/-- Claim C10.  `add_assertion_opt(Some(a), salted = false)` returns
`Err(InvalidFormat)` exactly when `a` is neither an Assertion variant nor
subject-obscured, and succeeds otherwise; the public `add_assertion` unwraps
this result, so it panics on exactly those inadmissible inputs. -/
theorem claim_C10 (e a : Envelope) :
    exceptIsOk (e.add_assertion_opt (some a) false)
        = (a.is_subject_assertion || a.is_subject_obscured) ∧
    (e.add_assertion_opt (some a) false = .error .invalidFormat ↔
      (a.is_subject_assertion = false ∧ a.is_subject_obscured = false)) := by
  cases hA : a.is_subject_assertion <;> cases hB : a.is_subject_obscured <;>
    simp [Envelope.add_assertion_opt, hA, hB, exceptIsOk]

/-- Claim C2.  For every valid envelope, whenever `encrypt_subject_opt`
returns Ok its result has the input's digest (so the source's trailing
`assert_eq` cannot fail), and whenever `compress` returns Ok its result has
the input's digest. -/
theorem claim_C2 (e : Envelope) (k : Nat) (n : Option Nat) (h : e.isValid = true) :
    resultDigestEq (e.encrypt_subject_opt k n) e.digest = true ∧
    resultDigestEq e.compress e.digest = true := by
  constructor
  · cases e with
    | node s las d =>
        simp only [Envelope.isValid, Bool.and_eq_true, beq_iff_eq] at h
        obtain ⟨⟨⟨⟨⟨⟨hs, hl⟩, hne⟩, hd⟩, hsort⟩, hdup⟩, hadm⟩ := h
        have hps : sortByDigest las = las :=
          sortByDigest_eq_of_pairwise ((sortedByDigestB_iff_pairwise las).mp hsort)
        simp only [Envelope.encrypt_subject_opt]
        cases hse : s.is_encrypted with
        | true => simp [resultDigestEq]
        | false =>
            simp [encrypt_with_digest, Envelope.new_with_encrypted,
              EncryptedMessage.has_digest, resultDigestEq,
              new_envelope_with_unchecked_assertions, Envelope.digest, hps, hd]
    | leaf c d =>
        simp [Envelope.encrypt_subject_opt, encrypt_with_digest,
          Envelope.new_with_encrypted, EncryptedMessage.has_digest, resultDigestEq,
          Envelope.digest]
    | wrapped inner d =>
        simp [Envelope.encrypt_subject_opt, encrypt_with_digest,
          Envelope.new_with_encrypted, EncryptedMessage.has_digest, resultDigestEq,
          Envelope.digest]
    | knownValue v d =>
        simp [Envelope.encrypt_subject_opt, encrypt_with_digest,
          Envelope.new_with_encrypted, EncryptedMessage.has_digest, resultDigestEq,
          Envelope.digest]
    | assertion p o d =>
        simp [Envelope.encrypt_subject_opt, encrypt_with_digest,
          Envelope.new_with_encrypted, EncryptedMessage.has_digest, resultDigestEq,
          Envelope.digest]
    | encrypted m => simp [Envelope.encrypt_subject_opt, resultDigestEq]
    | compressed c =>
        simp [Envelope.encrypt_subject_opt, encrypt_with_digest,
          Envelope.new_with_encrypted, EncryptedMessage.has_digest, resultDigestEq,
          Envelope.digest]
    | elided d => simp [Envelope.encrypt_subject_opt, resultDigestEq]
  · cases e <;> simp [Envelope.compress, resultDigestEq, Envelope.digest]

/-- Claim C2, witness at the valid Node `nodeC` with key 7. -/
theorem claim_C2_witness :
    nodeC.isValid = true ∧
    (resultDigestEq (nodeC.encrypt_subject_opt 7 none) nodeC.digest = true ∧
      resultDigestEq nodeC.compress nodeC.digest = true) :=
  ⟨rfl, claim_C2 nodeC 7 none (by rfl)⟩

/-- Claim C4, counterexample.  CBOR decoding does not deduplicate: decoding
the Node array that carries the assertion `aC` twice succeeds and produces a
Node whose two assertions share a digest, contradicting the claim that every
Node produced by a core operation has pairwise-distinct assertion digests. -/
theorem claim_C4_counterexample :
    (Envelope.from_untagged_cbor dupCbor).toOption.map
        (fun e => e.isNode && dupDigestsB e.nodeAssertions) = some true :=
  rfl

/-- Claim C4, amended.  Every Node built by the canonical constructor (hence
by every core operation, which all construct Nodes through it) has at least
one assertion and assertions sorted ascending by digest; the assertion
digests are pairwise distinct whenever the input list's digests were, and
assertion attachment preserves distinctness, but CBOR decoding of an array
with duplicated assertions yields a Node with a repeated digest. -/
theorem claim_C4 (s : Envelope) (las : List Envelope) (e a r : Envelope)
    (h1 : las ≠ []) (h2 : ((las.map Envelope.digest)).Nodup)
    (h3 : e.add_assertion_opt (some a) false = .ok r)
    (h4 : ((e.nodeAssertions.map Envelope.digest)).Nodup) :
    (new_envelope_with_unchecked_assertions s las).nodeAssertions ≠ [] ∧
    sortedByDigestB (new_envelope_with_unchecked_assertions s las).nodeAssertions = true ∧
    ((new_envelope_with_unchecked_assertions s las).nodeAssertions.map Envelope.digest).Nodup ∧
    ((r.nodeAssertions.map Envelope.digest)).Nodup := by
  have hna : (new_envelope_with_unchecked_assertions s las).nodeAssertions
      = sortByDigest las := rfl
  refine ⟨?_, ?_, ?_, ?_⟩
  · rw [hna]
    intro hnil
    exact h1 (((hnil ▸ perm_sortByDigest las).symm).eq_nil)
  · rw [hna]
    exact (sortedByDigestB_iff_pairwise _).mpr (pairwise_sortByDigest las)
  · rw [hna]
    exact nodup_map_digest_sortByDigest.mpr h2
  · obtain ⟨hr, hg⟩ := add_assertion_opt_ok_eq h3
    subst hr
    cases e with
    | node s2 las2 d2 =>
        by_cases hany : las2.any (fun x => x.digest == a.digest) = true
        · simpa [Envelope.addAssertionCore, hany, Envelope.nodeAssertions] using h4
        · rw [Bool.not_eq_true] at hany
          simp only [Envelope.addAssertionCore, hany, Bool.false_eq_true, if_false]
          have hgoal : ((sortByDigest (las2 ++ [a])).map Envelope.digest).Nodup := by
            rw [nodup_map_digest_sortByDigest, List.map_append, List.nodup_append]
            simp only [Envelope.nodeAssertions] at h4
            refine ⟨h4, by simp, ?_⟩
            intro x hx hxs
            rcases List.mem_map.mp hx with ⟨y, hy, hxy⟩
            have hxa : x = a.digest := by simpa using hxs
            have hya : (las2.any fun z => z.digest == a.digest) = true :=
              List.any_eq_true.mpr ⟨y, hy, by simp [hxy, hxa]⟩
            rw [hany] at hya
            exact Bool.false_ne_true hya
          exact hgoal
    | leaf c2 d2 =>
        simp [Envelope.addAssertionCore, new_envelope_with_unchecked_assertions,
          sortByDigest, orderedInsertByDigest, Envelope.nodeAssertions]
    | wrapped e2 d2 =>
        simp [Envelope.addAssertionCore, new_envelope_with_unchecked_assertions,
          sortByDigest, orderedInsertByDigest, Envelope.nodeAssertions]
    | knownValue v2 d2 =>
        simp [Envelope.addAssertionCore, new_envelope_with_unchecked_assertions,
          sortByDigest, orderedInsertByDigest, Envelope.nodeAssertions]
    | assertion p2 o2 d2 =>
        simp [Envelope.addAssertionCore, new_envelope_with_unchecked_assertions,
          sortByDigest, orderedInsertByDigest, Envelope.nodeAssertions]
    | encrypted m2 =>
        simp [Envelope.addAssertionCore, new_envelope_with_unchecked_assertions,
          sortByDigest, orderedInsertByDigest, Envelope.nodeAssertions]
    | compressed c2 =>
        simp [Envelope.addAssertionCore, new_envelope_with_unchecked_assertions,
          sortByDigest, orderedInsertByDigest, Envelope.nodeAssertions]
    | elided d2 =>
        simp [Envelope.addAssertionCore, new_envelope_with_unchecked_assertions,
          sortByDigest, orderedInsertByDigest, Envelope.nodeAssertions]

/-- Claim C4, witness at the constructor input `[aC]` and the attachment of
`aC` to `leafC`. -/
theorem claim_C4_witness :
    ([aC] : List Envelope) ≠ [] ∧
    (([aC].map Envelope.digest)).Nodup ∧
    leafC.add_assertion_opt (some aC) false = .ok nodeC ∧
    ((leafC.nodeAssertions.map Envelope.digest)).Nodup ∧
    ((new_envelope_with_unchecked_assertions leafC [aC]).nodeAssertions ≠ [] ∧
      sortedByDigestB (new_envelope_with_unchecked_assertions leafC [aC]).nodeAssertions
          = true ∧
      ((new_envelope_with_unchecked_assertions leafC [aC]).nodeAssertions.map
          Envelope.digest).Nodup ∧
      ((nodeC.nodeAssertions.map Envelope.digest)).Nodup) :=
  ⟨by simp, List.nodup_singleton _, by rfl, List.nodup_nil,
    claim_C4 leafC [aC] leafC aC nodeC (by simp) (List.nodup_singleton _) (by rfl)
      List.nodup_nil⟩

/-- Claim C7.  The digest of a Node built from a subject and an assertion
list is invariant under permutation of the list: the constructor sorts by
digest, and sorting two permutations of a list gives the same digest
sequence. -/
theorem claim_C7 (s : Envelope) (l1 l2 : List Envelope) (hperm : l1.Perm l2)
    (hnodup : (l1.map Envelope.digest).Nodup)
    (hadm : l1.all (fun a => a.is_subject_assertion || a.is_subject_obscured) = true) :
    (new_envelope_with_unchecked_assertions s l1).digest
      = (new_envelope_with_unchecked_assertions s l2).digest := by
  have hp : ((sortByDigest l1).map Envelope.digest).Perm
      ((sortByDigest l2).map Envelope.digest) :=
    ((perm_sortByDigest l1).trans (hperm.trans (perm_sortByDigest l2).symm)).map
      Envelope.digest
  have hs1 : ((sortByDigest l1).map Envelope.digest).Sorted (· ≤ ·) :=
    List.Pairwise.map Envelope.digest (fun a b hab => hab) (pairwise_sortByDigest l1)
  have hs2 : ((sortByDigest l2).map Envelope.digest).Sorted (· ≤ ·) :=
    List.Pairwise.map Envelope.digest (fun a b hab => hab) (pairwise_sortByDigest l2)
  have hmapeq := List.eq_of_perm_of_sorted hp hs1 hs2
  simp [new_envelope_with_unchecked_assertions, Envelope.digest, hmapeq]

/-- Claim C7, witness: the two orders of the distinct assertions `aC`, `bC`
on `leafC` give the same Node digest. -/
theorem claim_C7_witness :
    ([aC, bC] : List Envelope).Perm [bC, aC] ∧
    (([aC, bC].map Envelope.digest)).Nodup ∧
    [aC, bC].all (fun a => a.is_subject_assertion || a.is_subject_obscured) = true ∧
    (new_envelope_with_unchecked_assertions leafC [aC, bC]).digest
      = (new_envelope_with_unchecked_assertions leafC [bC, aC]).digest :=
  ⟨List.Perm.swap bC aC [], by decide, rfl,
    claim_C7 leafC [aC, bC] [bC, aC] (List.Perm.swap bC aC []) (by decide) rfl⟩

/-- Claim C8, counterexample.  A decoded Encrypted or Compressed item without
an authenticated digest makes decoding fail, but with `InvalidFormat`, not
with a missing-digest error: the source maps the inner `MissingDigest` to
`CBORError::InvalidFormat`, and the decoder's error type has no
missing-digest variant. -/
theorem claim_C8_counterexample :
    Envelope.from_untagged_cbor (.tagged encryptedTagV (.emsg (.uint 0) none 3 0))
      = .error DCBORError.invalidFormat ∧
    Envelope.from_untagged_cbor (.tagged compressedTagV (.comp (.uint 0) none))
      = .error DCBORError.invalidFormat :=
  ⟨rfl, rfl⟩

/-- Claim C8, amended.  During decoding, an untagged array of length < 2
fails with `InvalidFormat`, and an Encrypted or Compressed item without an
authenticated digest also fails with `InvalidFormat` (the inner
`MissingDigest` is mapped to `CBORError::InvalidFormat`). -/
theorem claim_C8 (elems : List CBOR) (m : EncryptedMessage) (c : Compressed)
    (h1 : elems.length < 2) (h2 : m.aad = none) (h3 : c.digest = none) :
    Envelope.from_untagged_cbor (.array elems) = .error .invalidFormat ∧
    Envelope.from_untagged_cbor
        (.tagged encryptedTagV (.emsg m.plaintext m.aad m.key m.nonce))
      = .error .invalidFormat ∧
    Envelope.from_untagged_cbor (.tagged compressedTagV (.comp c.data c.digest))
      = .error .invalidFormat := by
  refine ⟨?_, ?_, ?_⟩
  · cases elems with
    | nil => rfl
    | cons a t =>
        cases t with
        | nil => rfl
        | cons b t2 => exact absurd h1 (by simp)
  · rw [h2]; rfl
  · rw [h3]; rfl

/-- Claim C8, witness at the empty array, a digestless encrypted message and
a digestless compressed blob. -/
theorem claim_C8_witness :
    ([] : List CBOR).length < 2 ∧
    (⟨.uint 0, none, 3, 0⟩ : EncryptedMessage).aad = none ∧
    (⟨.uint 0, none⟩ : Compressed).digest = none ∧
    (Envelope.from_untagged_cbor (.array ([] : List CBOR)) = .error .invalidFormat ∧
      Envelope.from_untagged_cbor
          (.tagged encryptedTagV (.emsg (CBOR.uint 0) none 3 0))
        = .error .invalidFormat ∧
      Envelope.from_untagged_cbor (.tagged compressedTagV (.comp (CBOR.uint 0) none))
        = .error .invalidFormat) :=
  ⟨by decide, rfl, rfl,
    claim_C8 [] ⟨.uint 0, none, 3, 0⟩ ⟨.uint 0, none⟩ (by decide) rfl rfl⟩

end BCEnvelope


